import Mathlib

/-!
Verification of the reply-decorator module (`src/filters/reply.rs`).

The module provides two response decorators: `WithHeader` (insert-replace a
header) and `WithDefaultHeader` (insert a header only if absent), both built
from a validated `(HeaderName, HeaderValue)` pair, and a wrap mechanism that
applies the decorator's transformation to the successful result of an inner
filter.

Shallow embedding conventions:
- Header names and values are byte sequences, modelled as `List Nat`.
- The header validators mirror the `http` crate primitives used by the
  source (`HttpTryFrom` for `HeaderName` / `HeaderValue`): a name byte must
  be an HTTP token character (uppercase letters are normalized to
  lowercase), a value byte must be printable or tab.  The source's
  `panic!("invalid header name")` / `panic!("invalid header value")` in
  `assert_name_and_value` is modelled as `Except.error` with the
  corresponding error kind (`InvalidHeaderName` / `InvalidHeaderValue`),
  the error values produced by the failed conversion.
- The response's header collection is external to the repository; it is
  modelled from the spec as an ordered multi-valued association list with
  the two mutation operations the spec names: insert-replace and
  entry-or-insert.  The entry lookup validates its raw key bytes the same
  way the name validator does, so the `expect` in
  `WithDefaultHeader_::call` is modelled as error propagation.
- A filter (processing unit) is modelled from the spec as a function from a
  request to `Except rejection result`; `map` applies a function to the
  successful result, which is exactly what `WrapSealed::wrap` builds.
-/

/-- Error kinds arising from header validation at decorator-construction
time (`http::header::InvalidHeaderName` / `InvalidHeaderValue`). -/
inductive HeaderError where
  | invalidHeaderName
  | invalidHeaderValue
deriving DecidableEq, Repr

/-- Is `n` a valid HTTP header-name byte (token character)?  Mirrors the
`http` crate's header-name byte table: `! # $ % & ' * + - . ^ _ ` | ~`,
digits, and letters (uppercase accepted and normalized on parse). -/
def isTchar (n : Nat) : Bool :=
  n == 33 || (35 ≤ n && n ≤ 39) || n == 42 || n == 43 || n == 45 || n == 46 ||
  (48 ≤ n && n ≤ 57) || (65 ≤ n && n ≤ 90) || (94 ≤ n && n ≤ 96) ||
  (97 ≤ n && n ≤ 122) || n == 124 || n == 126

/-- Lowercase an uppercase ASCII letter byte; identity otherwise.  Header
names are stored in this normalized form, which realizes the protocol's
case-insensitive name equality. -/
def normalizeByte (n : Nat) : Nat :=
  if 65 ≤ n && n ≤ 90 then n + 32 else n

/-- A header name is valid when nonempty and made of token characters. -/
def isValidName (ns : List Nat) : Bool :=
  !ns.isEmpty && ns.all isTchar

/-- Is `n` a valid HTTP header-value byte?  Mirrors the `http` crate:
printable bytes (and obs-text), horizontal tab, no other controls. -/
def isValidValueByte (n : Nat) : Bool :=
  (32 ≤ n && n != 127) || n == 9

/-- A header value is valid when every byte is a valid value byte. -/
def isValidValue (vs : List Nat) : Bool :=
  vs.all isValidValueByte

/-- A validated, case-normalized header name token. -/
structure HeaderName where
  bytes : List Nat
deriving DecidableEq, Repr

/-- A validated header value (opaque byte sequence). -/
structure HeaderValue where
  bytes : List Nat
deriving DecidableEq, Repr

/-- `HeaderName: HttpTryFrom<K>` — convert raw bytes into a validated,
lowercase-normalized header name, or fail with `InvalidHeaderName`. -/
def HeaderName.tryFromBytes (ns : List Nat) : Except HeaderError HeaderName :=
  if isValidName ns then .ok ⟨ns.map normalizeByte⟩ else .error .invalidHeaderName

/-- `HeaderValue: HttpTryFrom<V>` — convert raw bytes into a validated
header value, or fail with `InvalidHeaderValue`. -/
def HeaderValue.tryFromBytes (vs : List Nat) : Except HeaderError HeaderValue :=
  if isValidValue vs then .ok ⟨vs⟩ else .error .invalidHeaderValue

/-- Modelled from the spec: the response's header collection (owned by the
external `http` crate, not part of this repository) is an ordered,
multi-valued collection of name/value entries. -/
abbrev HeaderMap := List (HeaderName × HeaderValue)

/-- All values stored under `name`, in order (byte equality of the
normalized names, which is the collection's name equality). -/
def HeaderMap.getAll (m : HeaderMap) (name : HeaderName) : List HeaderValue :=
  (m.filter (fun e => e.1 == name)).map (fun e => e.2)

/-- Does the collection contain an entry for `name`? -/
def HeaderMap.containsKey (m : HeaderMap) (name : HeaderName) : Bool :=
  m.any (fun e => e.1 == name)

/-- Modelled from the spec: insert-replace — remove all existing entries
for `name`, insert exactly one entry `value` (the `HeaderMap::insert` used
by `WithHeader_::call`). -/
def HeaderMap.insert (m : HeaderMap) (name : HeaderName) (value : HeaderValue) :
    HeaderMap :=
  m.filter (fun e => e.1 != name) ++ [(name, value)]

/-- Modelled from the spec: entry-or-insert — the
`entry(key).expect(..).or_insert_with(..)` used by
`WithDefaultHeader_::call`.  `entry` converts its raw key bytes through the
header-name validator and fails when they are not a valid name (the
`expect` branch); `or_insert_with` inserts `value` only when no entry for
the name exists, and otherwise leaves the collection untouched. -/
def HeaderMap.entryOrInsert (m : HeaderMap) (key : List Nat) (value : HeaderValue) :
    Except HeaderError HeaderMap :=
  match HeaderName.tryFromBytes key with
  | .error e => .error e
  | .ok n => if m.containsKey n then .ok m else .ok (m ++ [(n, value)])

/-- The response abstraction: status, body, and the header collection.  The
`Reply` capability's `into_response` is the identity in this embedding, and
the `Reply_` newtype wrapper is elided. -/
structure Response where
  status : Nat
  body : List Nat
  headers : HeaderMap
deriving DecidableEq, Repr

/-- `WithHeader` decorator value: a validated name/value pair with
insert-replace policy. -/
structure WithHeader where
  name : HeaderName
  value : HeaderValue
deriving DecidableEq, Repr

/-- `WithDefaultHeader` decorator value: a validated name/value pair with
entry-or-insert policy. -/
structure WithDefaultHeader where
  name : HeaderName
  value : HeaderValue
deriving DecidableEq, Repr

/-- `assert_name_and_value`: validate the pair, name first; the source's
`panic!` on a failed conversion is modelled as `Except.error`. -/
def assert_name_and_value (name value : List Nat) :
    Except HeaderError (HeaderName × HeaderValue) :=
  match HeaderName.tryFromBytes name with
  | .error e => .error e
  | .ok n =>
    match HeaderValue.tryFromBytes value with
    | .error e => .error e
    | .ok v => .ok (n, v)

/-- `header(name, value)`: construct a `WithHeader` decorator. -/
def header (name value : List Nat) : Except HeaderError WithHeader :=
  match assert_name_and_value name value with
  | .error e => .error e
  | .ok (n, v) => .ok ⟨n, v⟩

/-- `default_header(name, value)`: construct a `WithDefaultHeader`
decorator. -/
def default_header (name value : List Nat) : Except HeaderError WithDefaultHeader :=
  match assert_name_and_value name value with
  | .error e => .error e
  | .ok (n, v) => .ok ⟨n, v⟩

/-- `WithHeader_::call`: insert-replace the decorator's header on the
response (the Rust `WithHeader_` struct merely wraps a clone of the
`WithHeader` it was built from, so the function is stated on the decorator
itself). -/
def WithHeader_.call (w : WithHeader) (resp : Response) : Response :=
  { resp with headers := resp.headers.insert w.name w.value }

/-- `WithDefaultHeader_::call`: entry-or-insert the decorator's header on
the response; the `expect("parsed headername is always valid")` is the
error branch. -/
def WithDefaultHeader_.call (w : WithDefaultHeader) (resp : Response) :
    Except HeaderError Response :=
  match resp.headers.entryOrInsert w.name.bytes w.value with
  | .error e => .error e
  | .ok hm => .ok { resp with headers := hm }

/-- Modelled from the spec: a processing unit (warp `Filter`, defined
outside this file's source; named `WFilter` here since Lean reserves `Filter`) is invoked per request and yields exactly one
typed result or a rejection. -/
def WFilter (ρ ε α : Type) : Type := ρ → Except ε α

/-- Modelled from the spec: `Filter::map` applies a function to the
successful result and passes rejections through. -/
def WFilter.map {ρ ε α β : Type} (f : WFilter ρ ε α) (g : α → β) : WFilter ρ ε β :=
  fun req => (f req).map g

/-- `WrapSealed::wrap for WithHeader`: `filter.map(with)`. -/
def WithHeader.wrap {ρ ε : Type} (w : WithHeader) (f : WFilter ρ ε Response) :
    WFilter ρ ε Response :=
  WFilter.map f (fun r => WithHeader_.call w r)

/-- `WrapSealed::wrap for WithDefaultHeader`: `filter.map(with)`; the
transformation's own (unreachable) failure is surfaced in the result
type. -/
def WithDefaultHeader.wrap {ρ ε : Type} (w : WithDefaultHeader)
    (f : WFilter ρ ε Response) : WFilter ρ ε (Except HeaderError Response) :=
  WFilter.map f (fun r => WithDefaultHeader_.call w r)

/-! ### Validation lemmas -/

theorem normalizeByte_idem (n : Nat) :
    normalizeByte (normalizeByte n) = normalizeByte n := by
  by_cases h : 65 ≤ n ∧ n ≤ 90
  · have h1 : normalizeByte n = n + 32 := by
      unfold normalizeByte
      rw [if_pos (by simp only [Bool.and_eq_true, decide_eq_true_eq]; exact h)]
    rw [h1]
    unfold normalizeByte
    rw [if_neg (by simp; omega)]
  · have h1 : normalizeByte n = n := by
      unfold normalizeByte
      rw [if_neg (by simp; omega)]
    rw [h1, h1]

theorem isTchar_normalizeByte {n : Nat} (h : isTchar n = true) :
    isTchar (normalizeByte n) = true := by
  unfold normalizeByte
  split
  · next hc =>
    simp only [Bool.and_eq_true, decide_eq_true_eq] at hc
    simp only [isTchar, Bool.or_eq_true, Bool.and_eq_true, decide_eq_true_eq, beq_iff_eq]
    omega
  · exact h

theorem isValidName_map_normalizeByte {ns : List Nat} (h : isValidName ns = true) :
    isValidName (ns.map normalizeByte) = true := by
  simp only [isValidName, Bool.and_eq_true, Bool.not_eq_true', List.isEmpty_eq_false,
    List.all_eq_true, List.mem_map, ne_eq, List.map_eq_nil_iff] at h ⊢
  obtain ⟨h1, h2⟩ := h
  refine ⟨h1, ?_⟩
  rintro x ⟨a, ha, rfl⟩
  exact isTchar_normalizeByte (h2 a ha)

theorem map_normalizeByte_idem (ns : List Nat) :
    (ns.map normalizeByte).map normalizeByte = ns.map normalizeByte := by
  induction ns with
  | nil => rfl
  | cons a l ih => simp [normalizeByte_idem, ih]

theorem HeaderName.tryFromBytes_name_ok {ns : List Nat} {n : HeaderName}
    (h : HeaderName.tryFromBytes ns = .ok n) :
    isValidName ns = true ∧ n.bytes = ns.map normalizeByte := by
  unfold HeaderName.tryFromBytes at h
  split at h
  · next hv => cases h; exact ⟨hv, rfl⟩
  · simp at h

theorem HeaderValue.tryFromBytes_value_ok {vs : List Nat} {v : HeaderValue}
    (h : HeaderValue.tryFromBytes vs = .ok v) :
    isValidValue vs = true ∧ v = ⟨vs⟩ := by
  unfold HeaderValue.tryFromBytes at h
  split at h
  · next hv => cases h; exact ⟨hv, rfl⟩
  · simp at h

/-- A name produced by the validator re-validates to itself: the stored
bytes are nonempty token characters already in normalized form.  This is
the fact behind the source's `expect("parsed headername is always
valid")`. -/
theorem HeaderName.revalidates {ns : List Nat} {n : HeaderName}
    (h : HeaderName.tryFromBytes ns = .ok n) :
    HeaderName.tryFromBytes n.bytes = .ok n := by
  obtain ⟨hv, hb⟩ := HeaderName.tryFromBytes_name_ok h
  unfold HeaderName.tryFromBytes
  rw [hb, if_pos (isValidName_map_normalizeByte hv), map_normalizeByte_idem, ← hb]

/-! ### Construction lemmas -/

theorem assert_name_and_value_ok {ns vs : List Nat} {n : HeaderName} {v : HeaderValue}
    (h : assert_name_and_value ns vs = .ok (n, v)) :
    HeaderName.tryFromBytes ns = .ok n ∧ HeaderValue.tryFromBytes vs = .ok v := by
  unfold assert_name_and_value at h
  split at h
  · simp at h
  · next _ hn =>
    split at h
    · simp at h
    · next _ hv =>
      cases h
      exact ⟨hn, hv⟩

theorem header_ok {ns vs : List Nat} {d : WithHeader} (h : header ns vs = .ok d) :
    HeaderName.tryFromBytes ns = .ok d.name ∧ HeaderValue.tryFromBytes vs = .ok d.value := by
  unfold header at h
  split at h
  · simp at h
  · next n v hnv =>
    cases h
    exact assert_name_and_value_ok hnv

theorem default_header_ok {ns vs : List Nat} {d : WithDefaultHeader}
    (h : default_header ns vs = .ok d) :
    HeaderName.tryFromBytes ns = .ok d.name ∧ HeaderValue.tryFromBytes vs = .ok d.value := by
  unfold default_header at h
  split at h
  · simp at h
  · next n v hnv =>
    cases h
    exact assert_name_and_value_ok hnv

/-! ### Header-collection lemmas -/

theorem getAll_insert (m : HeaderMap) (n : HeaderName) (v : HeaderValue) :
    (HeaderMap.insert m n v).getAll n = [v] := by
  simp [HeaderMap.insert, HeaderMap.getAll, List.filter_filter]

theorem filter_ne_insert (m : HeaderMap) (n : HeaderName) (v : HeaderValue) :
    (HeaderMap.insert m n v).filter (fun e => e.1 != n) =
      m.filter (fun e => e.1 != n) := by
  simp [HeaderMap.insert, List.filter_filter]

theorem insert_insert_self (m : HeaderMap) (n : HeaderName) (v : HeaderValue) :
    HeaderMap.insert (HeaderMap.insert m n v) n v = HeaderMap.insert m n v := by
  simp [HeaderMap.insert, List.filter_append, List.filter_filter]

theorem filter_eq_nil_of_not_containsKey {m : HeaderMap} {n : HeaderName}
    (h : m.containsKey n = false) : m.filter (fun e => e.1 == n) = [] := by
  unfold HeaderMap.containsKey at h
  rw [List.filter_eq_nil_iff]
  intro a ha
  exact (List.any_eq_false.mp h) a ha

theorem getAll_eq_nil_of_not_containsKey {m : HeaderMap} {n : HeaderName}
    (h : m.containsKey n = false) : m.getAll n = [] := by
  unfold HeaderMap.getAll
  rw [filter_eq_nil_of_not_containsKey h, List.map_nil]

theorem getAll_append_absent {m : HeaderMap} {n : HeaderName}
    (h : m.containsKey n = false) (v : HeaderValue) :
    (m ++ [(n, v)]).getAll n = [v] := by
  unfold HeaderMap.getAll
  rw [List.filter_append, filter_eq_nil_of_not_containsKey h]
  simp

theorem containsKey_append_self (m : HeaderMap) (n : HeaderName) (v : HeaderValue) :
    (m ++ [(n, v)]).containsKey n = true := by
  simp [HeaderMap.containsKey]

theorem filter_ne_append_self (m : HeaderMap) (n : HeaderName) (v : HeaderValue) :
    (m ++ [(n, v)]).filter (fun e => e.1 != n) = m.filter (fun e => e.1 != n) := by
  simp [List.filter_append]

/-- A decorator constructed by `header` carries a name whose bytes
re-validate to the name itself. -/
theorem header_ok_name_revalidates {ns vs : List Nat} {d : WithHeader}
    (h : header ns vs = .ok d) :
    HeaderName.tryFromBytes d.name.bytes = .ok d.name :=
  HeaderName.revalidates (header_ok h).1

/-- A decorator constructed by `default_header` carries a name whose bytes
re-validate to the name itself. -/
theorem default_header_ok_name_revalidates {ns vs : List Nat} {d : WithDefaultHeader}
    (h : default_header ns vs = .ok d) :
    HeaderName.tryFromBytes d.name.bytes = .ok d.name :=
  HeaderName.revalidates (default_header_ok h).1

/-- Shape of `WithDefaultHeader_::call` once the entry lookup is known to
succeed: a no-op when the name is present, an append of the default entry
when it is absent. -/
theorem WithDefaultHeader_call_eq {d : WithDefaultHeader} {r : Response}
    (h : HeaderName.tryFromBytes d.name.bytes = .ok d.name) :
    WithDefaultHeader_.call d r =
      .ok (if r.headers.containsKey d.name then r
           else { r with headers := r.headers ++ [(d.name, d.value)] }) := by
  by_cases hc : r.headers.containsKey d.name = true
  · simp [WithDefaultHeader_.call, HeaderMap.entryOrInsert, h, hc]
  · simp only [Bool.not_eq_true] at hc
    simp [WithDefaultHeader_.call, HeaderMap.entryOrInsert, h, hc]

/-! ### Claim theorems -/

/-- Claim C1: for every valid decorator `(name, value)` of the Replace kind
(`WithHeader`) and every response, applying its transformation yields a
response whose header collection contains exactly one entry for `name`,
equal to `value`, regardless of how many entries for `name` existed before
(0, 1, or many). -/
theorem C1_replace_yields_exactly_one_entry {ns vs : List Nat} {d : WithHeader}
    (_h : header ns vs = .ok d) (r : Response) :
    ((WithHeader_.call d r).headers).getAll d.name = [d.value] :=
  getAll_insert r.headers d.name d.value

theorem C1_replace_yields_exactly_one_entry_witness :
    ((WithHeader_.call ⟨⟨[97]⟩, ⟨[98]⟩⟩
        ⟨200, [], [(⟨[97]⟩, ⟨[99]⟩), (⟨[97]⟩, ⟨[100]⟩), (⟨[120]⟩, ⟨[101]⟩)]⟩).headers).getAll
      ⟨[97]⟩ = [⟨[98]⟩] :=
  @C1_replace_yields_exactly_one_entry [97] [98] ⟨⟨[97]⟩, ⟨[98]⟩⟩ rfl
    ⟨200, [], [(⟨[97]⟩, ⟨[99]⟩), (⟨[97]⟩, ⟨[100]⟩), (⟨[120]⟩, ⟨[101]⟩)]⟩

/-- Claim C2: for every valid decorator `(name, value)` of the Default kind
(`WithDefaultHeader`): applied to a response with no entry for `name` it
yields exactly one entry `value` for `name`; applied to a response that
already has an entry for `name` it leaves the response exactly as it was
(a no-op, in particular for that name). -/
theorem C2_default_inserts_only_when_absent {ns vs : List Nat} {d : WithDefaultHeader}
    (h : default_header ns vs = .ok d) (r : Response) :
    (r.headers.containsKey d.name = false →
      ∃ r', WithDefaultHeader_.call d r = .ok r' ∧
        r'.headers.getAll d.name = [d.value]) ∧
    (r.headers.containsKey d.name = true →
      WithDefaultHeader_.call d r = .ok r) := by
  have hcall := WithDefaultHeader_call_eq
    (r := r) (default_header_ok_name_revalidates h)
  constructor
  · intro habs
    refine ⟨{ r with headers := r.headers ++ [(d.name, d.value)] }, ?_, ?_⟩
    · rw [hcall, if_neg (by simp [habs])]
    · exact getAll_append_absent habs d.value
  · intro hpres
    rw [hcall, if_pos hpres]

theorem C2_default_inserts_only_when_absent_witness :
    (((⟨200, [], [(⟨[120]⟩, ⟨[101]⟩)]⟩ : Response).headers.containsKey ⟨[97]⟩ = false →
      ∃ r', WithDefaultHeader_.call ⟨⟨[97]⟩, ⟨[98]⟩⟩ ⟨200, [], [(⟨[120]⟩, ⟨[101]⟩)]⟩ = .ok r' ∧
        r'.headers.getAll ⟨[97]⟩ = [⟨[98]⟩]) ∧
    ((⟨200, [], [(⟨[120]⟩, ⟨[101]⟩)]⟩ : Response).headers.containsKey ⟨[97]⟩ = true →
      WithDefaultHeader_.call ⟨⟨[97]⟩, ⟨[98]⟩⟩ ⟨200, [], [(⟨[120]⟩, ⟨[101]⟩)]⟩ =
        .ok ⟨200, [], [(⟨[120]⟩, ⟨[101]⟩)]⟩)) ∧
    (⟨200, [], [(⟨[120]⟩, ⟨[101]⟩)]⟩ : Response).headers.containsKey ⟨[97]⟩ = false :=
  ⟨@C2_default_inserts_only_when_absent [97] [98] ⟨⟨[97]⟩, ⟨[98]⟩⟩ rfl
      ⟨200, [], [(⟨[120]⟩, ⟨[101]⟩)]⟩,
    by decide⟩

/-- A concrete always-rejecting inner filter, used to exercise the wrap
pass-through behavior on a rejection. -/
def rejectingUnit : WFilter Nat Nat Response := fun _ => .error 7

/-- A concrete always-succeeding inner filter, used to exercise the wrap
behavior on a success. -/
def succeedingUnit : WFilter Nat Nat Response := fun _ => .ok ⟨200, [], []⟩

/-- Claim C3: for every decorator and every inner processing unit, the
wrapped unit applies the decorator's transformation only after the inner
unit completes successfully: a rejection of the inner unit passes through
exactly, with no transformation attempted, and a success with result `r`
becomes exactly one application of the transformation to `r`. -/
theorem C3_wrap_transforms_only_success {ρ ε : Type} (w : WithHeader)
    (wd : WithDefaultHeader) (f : WFilter ρ ε Response) (req : ρ) :
    ((∀ e, f req = .error e → WithHeader.wrap w f req = .error e) ∧
     (∀ r, f req = .ok r →
        WithHeader.wrap w f req = .ok (WithHeader_.call w r))) ∧
    ((∀ e, f req = .error e → WithDefaultHeader.wrap wd f req = .error e) ∧
     (∀ r, f req = .ok r →
        WithDefaultHeader.wrap wd f req = .ok (WithDefaultHeader_.call wd r))) := by
  refine ⟨⟨fun e he => ?_, fun r hr => ?_⟩, fun e he => ?_, fun r hr => ?_⟩ <;>
    simp_all [WithHeader.wrap, WithDefaultHeader.wrap, WFilter.map, Except.map]

theorem C3_wrap_transforms_only_success_witness :
    WithHeader.wrap ⟨⟨[97]⟩, ⟨[98]⟩⟩ rejectingUnit 0 = .error 7 ∧
    WithHeader.wrap ⟨⟨[97]⟩, ⟨[98]⟩⟩ succeedingUnit 0 =
      .ok (WithHeader_.call ⟨⟨[97]⟩, ⟨[98]⟩⟩ ⟨200, [], []⟩) ∧
    WithDefaultHeader.wrap ⟨⟨[97]⟩, ⟨[98]⟩⟩ rejectingUnit 0 = .error 7 ∧
    WithDefaultHeader.wrap ⟨⟨[97]⟩, ⟨[98]⟩⟩ succeedingUnit 0 =
      .ok (WithDefaultHeader_.call ⟨⟨[97]⟩, ⟨[98]⟩⟩ ⟨200, [], []⟩) :=
  ⟨((C3_wrap_transforms_only_success ⟨⟨[97]⟩, ⟨[98]⟩⟩ ⟨⟨[97]⟩, ⟨[98]⟩⟩
      rejectingUnit 0).1.1) 7 rfl,
   ((C3_wrap_transforms_only_success ⟨⟨[97]⟩, ⟨[98]⟩⟩ ⟨⟨[97]⟩, ⟨[98]⟩⟩
      succeedingUnit 0).1.2) ⟨200, [], []⟩ rfl,
   ((C3_wrap_transforms_only_success ⟨⟨[97]⟩, ⟨[98]⟩⟩ ⟨⟨[97]⟩, ⟨[98]⟩⟩
      rejectingUnit 0).2.1) 7 rfl,
   ((C3_wrap_transforms_only_success ⟨⟨[97]⟩, ⟨[98]⟩⟩ ⟨⟨[97]⟩, ⟨[98]⟩⟩
      succeedingUnit 0).2.2) ⟨200, [], []⟩ rfl⟩

/-- Claim C4: chaining two Replace decorators for the same name, value "a"
(byte 97) on the inner wrap and "b" (byte 98) on the outer wrap, yields a
final response whose sole entry for that name is "b"; the outer
(later-applied) transformation runs last and wins, and swapping the chain
yields "a" instead, so the chaining is not commutative. -/
theorem C4_replace_chain_outer_wins {ρ ε : Type} {ns : List Nat} {d1 d2 : WithHeader}
    (h1 : header ns [97] = .ok d1) (h2 : header ns [98] = .ok d2)
    (f : WFilter ρ ε Response) (req : ρ) (r : Response) (hreq : f req = .ok r) :
    (∃ r2, WithHeader.wrap d2 (WithHeader.wrap d1 f) req = .ok r2 ∧
      r2.headers.getAll d2.name = [⟨[98]⟩]) ∧
    (∃ r2, WithHeader.wrap d1 (WithHeader.wrap d2 f) req = .ok r2 ∧
      r2.headers.getAll d1.name = [⟨[97]⟩]) ∧
    (⟨[98]⟩ : HeaderValue) ≠ ⟨[97]⟩ := by
  have hv1 : d1.value = ⟨[97]⟩ := (HeaderValue.tryFromBytes_value_ok (header_ok h1).2).2
  have hv2 : d2.value = ⟨[98]⟩ := (HeaderValue.tryFromBytes_value_ok (header_ok h2).2).2
  refine ⟨⟨WithHeader_.call d2 (WithHeader_.call d1 r), ?_, ?_⟩,
          ⟨WithHeader_.call d1 (WithHeader_.call d2 r), ?_, ?_⟩, by decide⟩
  · simp [WithHeader.wrap, WFilter.map, hreq, Except.map]
  · rw [← hv2]; exact getAll_insert _ _ _
  · simp [WithHeader.wrap, WFilter.map, hreq, Except.map]
  · rw [← hv1]; exact getAll_insert _ _ _

theorem C4_replace_chain_outer_wins_witness :
    (∃ r2, WithHeader.wrap ⟨⟨[97]⟩, ⟨[98]⟩⟩
        (WithHeader.wrap ⟨⟨[97]⟩, ⟨[97]⟩⟩ succeedingUnit) 0 = .ok r2 ∧
      r2.headers.getAll ⟨[97]⟩ = [⟨[98]⟩]) ∧
    (∃ r2, WithHeader.wrap ⟨⟨[97]⟩, ⟨[97]⟩⟩
        (WithHeader.wrap ⟨⟨[97]⟩, ⟨[98]⟩⟩ succeedingUnit) 0 = .ok r2 ∧
      r2.headers.getAll ⟨[97]⟩ = [⟨[97]⟩]) ∧
    (⟨[98]⟩ : HeaderValue) ≠ ⟨[97]⟩ :=
  @C4_replace_chain_outer_wins Nat Nat [97] ⟨⟨[97]⟩, ⟨[97]⟩⟩ ⟨⟨[97]⟩, ⟨[98]⟩⟩
    rfl rfl succeedingUnit 0 ⟨200, [], []⟩ rfl

/-- Claim C5: chaining two Default decorators for the same name, value "a"
(byte 97) applied first and "b" (byte 98) applied second, on a response
with no prior entry for that name, yields a final response whose entry for
that name is "a": the inner decorator's check runs first, so the default
closest to the source takes effect. -/
theorem C5_default_chain_inner_wins {ns : List Nat} {d1 d2 : WithDefaultHeader}
    (h1 : default_header ns [97] = .ok d1) (h2 : default_header ns [98] = .ok d2)
    (r : Response) (habs : r.headers.containsKey d1.name = false) :
    ∃ r1 r2, WithDefaultHeader_.call d1 r = .ok r1 ∧
      WithDefaultHeader_.call d2 r1 = .ok r2 ∧
      r2.headers.getAll d1.name = [⟨[97]⟩] := by
  have hn : d2.name = d1.name := by
    have b1 := (HeaderName.tryFromBytes_name_ok (default_header_ok h1).1).2
    have b2 := (HeaderName.tryFromBytes_name_ok (default_header_ok h2).1).2
    calc d2.name = ⟨d2.name.bytes⟩ := rfl
      _ = ⟨ns.map normalizeByte⟩ := by rw [b2]
      _ = ⟨d1.name.bytes⟩ := by rw [b1]
      _ = d1.name := rfl
  have hv1 : d1.value = ⟨[97]⟩ := (HeaderValue.tryFromBytes_value_ok (default_header_ok h1).2).2
  have hc1 := WithDefaultHeader_call_eq (r := r) (default_header_ok_name_revalidates h1)
  refine ⟨{ r with headers := r.headers ++ [(d1.name, d1.value)] },
          { r with headers := r.headers ++ [(d1.name, d1.value)] }, ?_, ?_, ?_⟩
  · rw [hc1, if_neg (by simp [habs])]
  · have hc2 := WithDefaultHeader_call_eq
      (r := { r with headers := r.headers ++ [(d1.name, d1.value)] })
      (default_header_ok_name_revalidates h2)
    have hpres : ({ r with headers := r.headers ++ [(d1.name, d1.value)] } :
        Response).headers.containsKey d2.name = true := by
      rw [hn]
      exact containsKey_append_self _ _ _
    rw [hc2, if_pos hpres]
  · rw [← hv1]
    exact getAll_append_absent habs d1.value

theorem C5_default_chain_inner_wins_witness :
    ∃ r1 r2, WithDefaultHeader_.call ⟨⟨[97]⟩, ⟨[97]⟩⟩ ⟨200, [], []⟩ = .ok r1 ∧
      WithDefaultHeader_.call ⟨⟨[97]⟩, ⟨[98]⟩⟩ r1 = .ok r2 ∧
      r2.headers.getAll ⟨[97]⟩ = [⟨[97]⟩] :=
  @C5_default_chain_inner_wins [97] ⟨⟨[97]⟩, ⟨[97]⟩⟩ ⟨⟨[97]⟩, ⟨[98]⟩⟩
    rfl rfl ⟨200, [], []⟩ rfl

/-- Claim C6: constructing a decorator (via `header` or `default_header`)
from an invalid name fails with `InvalidHeaderName` and from an invalid
value with `InvalidHeaderValue`, at construction time, and produces no
usable decorator value; a decorator that does exist is fully valid. -/
theorem C6_construction_fails_fast (ns vs : List Nat) :
    (isValidName ns = false →
      header ns vs = .error .invalidHeaderName ∧
      default_header ns vs = .error .invalidHeaderName) ∧
    (isValidName ns = true → isValidValue vs = false →
      header ns vs = .error .invalidHeaderValue ∧
      default_header ns vs = .error .invalidHeaderValue) ∧
    (∀ d : WithHeader, header ns vs = .ok d →
      isValidName ns = true ∧ isValidValue vs = true) ∧
    (∀ d : WithDefaultHeader, default_header ns vs = .ok d →
      isValidName ns = true ∧ isValidValue vs = true) := by
  refine ⟨fun hn => ?_, fun hn hv => ?_, fun d hd => ?_, fun d hd => ?_⟩
  · constructor <;>
      simp [header, default_header, assert_name_and_value, HeaderName.tryFromBytes, hn]
  · constructor <;>
      simp [header, default_header, assert_name_and_value, HeaderName.tryFromBytes,
        HeaderValue.tryFromBytes, hn, hv]
  · exact ⟨(HeaderName.tryFromBytes_name_ok (header_ok hd).1).1,
      (HeaderValue.tryFromBytes_value_ok (header_ok hd).2).1⟩
  · exact ⟨(HeaderName.tryFromBytes_name_ok (default_header_ok hd).1).1,
      (HeaderValue.tryFromBytes_value_ok (default_header_ok hd).2).1⟩

theorem C6_construction_fails_fast_witness :
    (header [10] [97] = .error .invalidHeaderName ∧
     default_header [10] [97] = .error .invalidHeaderName) ∧
    (header [97] [10] = .error .invalidHeaderValue ∧
     default_header [97] [10] = .error .invalidHeaderValue) :=
  ⟨(C6_construction_fails_fast [10] [97]).1 rfl,
   (C6_construction_fails_fast [97] [10]).2.1 rfl rfl⟩

/-- Claim C7: both decorator transformations are idempotent on responses:
applying the Replace transformation twice yields the same response as
applying it once, and applying the Default transformation to the result of
a first application reproduces that result. -/
theorem C7_transformations_idempotent {ns1 vs1 ns2 vs2 : List Nat} {d : WithHeader}
    {dd : WithDefaultHeader} (_h1 : header ns1 vs1 = .ok d)
    (h2 : default_header ns2 vs2 = .ok dd) (r : Response) :
    WithHeader_.call d (WithHeader_.call d r) = WithHeader_.call d r ∧
    (∀ r1, WithDefaultHeader_.call dd r = .ok r1 →
      WithDefaultHeader_.call dd r1 = .ok r1) := by
  constructor
  · simp only [WithHeader_.call]
    rw [insert_insert_self]
  · intro r1 hr1
    rw [WithDefaultHeader_call_eq (r := r) (default_header_ok_name_revalidates h2)] at hr1
    simp only [Except.ok.injEq] at hr1
    subst hr1
    by_cases hk : r.headers.containsKey dd.name = true
    · rw [if_pos hk,
        WithDefaultHeader_call_eq (r := r) (default_header_ok_name_revalidates h2),
        if_pos hk]
    · rw [if_neg hk,
        WithDefaultHeader_call_eq
          (r := { r with headers := r.headers ++ [(dd.name, dd.value)] })
          (default_header_ok_name_revalidates h2),
        if_pos (containsKey_append_self r.headers dd.name dd.value)]

theorem C7_transformations_idempotent_witness :
    WithHeader_.call ⟨⟨[97]⟩, ⟨[98]⟩⟩ (WithHeader_.call ⟨⟨[97]⟩, ⟨[98]⟩⟩
        ⟨200, [], [(⟨[97]⟩, ⟨[99]⟩)]⟩) =
      WithHeader_.call ⟨⟨[97]⟩, ⟨[98]⟩⟩ ⟨200, [], [(⟨[97]⟩, ⟨[99]⟩)]⟩ ∧
    WithDefaultHeader_.call ⟨⟨[97]⟩, ⟨[98]⟩⟩ ⟨200, [], [(⟨[97]⟩, ⟨[98]⟩)]⟩ =
      .ok ⟨200, [], [(⟨[97]⟩, ⟨[98]⟩)]⟩ :=
  ⟨(@C7_transformations_idempotent [97] [98] [97] [98] ⟨⟨[97]⟩, ⟨[98]⟩⟩
      ⟨⟨[97]⟩, ⟨[98]⟩⟩ rfl rfl ⟨200, [], [(⟨[97]⟩, ⟨[99]⟩)]⟩).1,
   (@C7_transformations_idempotent [97] [98] [97] [98] ⟨⟨[97]⟩, ⟨[98]⟩⟩
      ⟨⟨[97]⟩, ⟨[98]⟩⟩ rfl rfl ⟨200, [], []⟩).2 ⟨200, [], [(⟨[97]⟩, ⟨[98]⟩)]⟩ rfl⟩

/-- Claim C8: for every valid decorator and every successful inner
response, the transformation leaves the response's status and body
unchanged; only the header collection is mutated. -/
theorem C8_status_body_preserved {ns1 vs1 ns2 vs2 : List Nat} {d : WithHeader}
    {dd : WithDefaultHeader} (_h1 : header ns1 vs1 = .ok d)
    (h2 : default_header ns2 vs2 = .ok dd) (r : Response) :
    ((WithHeader_.call d r).status = r.status ∧
     (WithHeader_.call d r).body = r.body) ∧
    (∀ r', WithDefaultHeader_.call dd r = .ok r' →
      r'.status = r.status ∧ r'.body = r.body) := by
  refine ⟨⟨rfl, rfl⟩, fun r' hr' => ?_⟩
  rw [WithDefaultHeader_call_eq (r := r) (default_header_ok_name_revalidates h2)] at hr'
  simp only [Except.ok.injEq] at hr'
  subst hr'
  by_cases hk : r.headers.containsKey dd.name = true
  · rw [if_pos hk]; exact ⟨rfl, rfl⟩
  · rw [if_neg hk]; exact ⟨rfl, rfl⟩

theorem C8_status_body_preserved_witness :
    ((WithHeader_.call ⟨⟨[97]⟩, ⟨[98]⟩⟩ ⟨201, [107], []⟩).status = 201 ∧
     (WithHeader_.call ⟨⟨[97]⟩, ⟨[98]⟩⟩ ⟨201, [107], []⟩).body = [107]) ∧
    ((⟨201, [107], [(⟨[97]⟩, ⟨[98]⟩)]⟩ : Response).status = 201 ∧
     (⟨201, [107], [(⟨[97]⟩, ⟨[98]⟩)]⟩ : Response).body = [107]) :=
  ⟨(@C8_status_body_preserved [97] [98] [97] [98] ⟨⟨[97]⟩, ⟨[98]⟩⟩
      ⟨⟨[97]⟩, ⟨[98]⟩⟩ rfl rfl ⟨201, [107], []⟩).1,
   (@C8_status_body_preserved [97] [98] [97] [98] ⟨⟨[97]⟩, ⟨[98]⟩⟩
      ⟨⟨[97]⟩, ⟨[98]⟩⟩ rfl rfl ⟨201, [107], []⟩).2
     ⟨201, [107], [(⟨[97]⟩, ⟨[98]⟩)]⟩ rfl⟩

/-- Claim C9: for every validly constructed decorator the request-time
transformations cannot fail on any response: the entry lookup on the
decorator's already-validated name always succeeds, so the failure branch
behind the source's `expect` is unreachable and `WithDefaultHeader_::call`
always returns a response. -/
theorem C9_request_time_cannot_fail {ns vs : List Nat} {d : WithDefaultHeader}
    (h : default_header ns vs = .ok d) :
    (∀ (m : HeaderMap) (v : HeaderValue),
      ∃ hm, HeaderMap.entryOrInsert m d.name.bytes v = .ok hm) ∧
    (∀ r : Response, ∃ r', WithDefaultHeader_.call d r = .ok r') := by
  have hrv := default_header_ok_name_revalidates h
  constructor
  · intro m v
    by_cases hk : m.containsKey d.name = true
    · exact ⟨m, by unfold HeaderMap.entryOrInsert; rw [hrv]; simp [hk]⟩
    · exact ⟨m ++ [(d.name, v)], by unfold HeaderMap.entryOrInsert; rw [hrv]; simp [hk]⟩
  · intro r
    rw [WithDefaultHeader_call_eq (r := r) hrv]
    exact ⟨_, rfl⟩

theorem C9_request_time_cannot_fail_witness :
    (∃ hm, HeaderMap.entryOrInsert [] [97] ⟨[99]⟩ = .ok hm) ∧
    (∃ r', WithDefaultHeader_.call ⟨⟨[97]⟩, ⟨[98]⟩⟩ ⟨200, [], []⟩ = .ok r') :=
  ⟨(@C9_request_time_cannot_fail [97] [98] ⟨⟨[97]⟩, ⟨[98]⟩⟩ rfl).1 [] ⟨[99]⟩,
   (@C9_request_time_cannot_fail [97] [98] ⟨⟨[97]⟩, ⟨[98]⟩⟩ rfl).2 ⟨200, [], []⟩⟩

/-- Claim C10: both transformations leave every header entry whose name
differs from the decorator's name unchanged in value, multiplicity, and
relative order: the sublist of entries for other names is preserved
exactly. -/
theorem C10_other_names_untouched {ns1 vs1 ns2 vs2 : List Nat} {d : WithHeader}
    {dd : WithDefaultHeader} (_h1 : header ns1 vs1 = .ok d)
    (h2 : default_header ns2 vs2 = .ok dd) (r : Response) :
    ((WithHeader_.call d r).headers.filter (fun e => e.1 != d.name) =
      r.headers.filter (fun e => e.1 != d.name)) ∧
    (∀ r', WithDefaultHeader_.call dd r = .ok r' →
      r'.headers.filter (fun e => e.1 != dd.name) =
        r.headers.filter (fun e => e.1 != dd.name)) := by
  constructor
  · exact filter_ne_insert r.headers d.name d.value
  · intro r' hr'
    rw [WithDefaultHeader_call_eq (r := r) (default_header_ok_name_revalidates h2)] at hr'
    simp only [Except.ok.injEq] at hr'
    subst hr'
    by_cases hk : r.headers.containsKey dd.name = true
    · rw [if_pos hk]
    · rw [if_neg hk]
      exact filter_ne_append_self r.headers dd.name dd.value

theorem C10_other_names_untouched_witness :
    ((WithHeader_.call ⟨⟨[97]⟩, ⟨[98]⟩⟩
        ⟨200, [], [(⟨[120]⟩, ⟨[101]⟩), (⟨[97]⟩, ⟨[99]⟩)]⟩).headers.filter
      (fun e => e.1 != ⟨[97]⟩) =
      (([(⟨[120]⟩, ⟨[101]⟩), (⟨[97]⟩, ⟨[99]⟩)] : HeaderMap).filter
        (fun e => e.1 != ⟨[97]⟩))) ∧
    ((⟨200, [], [(⟨[120]⟩, ⟨[101]⟩), (⟨[97]⟩, ⟨[99]⟩)]⟩ : Response).headers.filter
        (fun e => e.1 != ⟨[97]⟩) =
      (([(⟨[120]⟩, ⟨[101]⟩), (⟨[97]⟩, ⟨[99]⟩)] : HeaderMap).filter
        (fun e => e.1 != ⟨[97]⟩))) :=
  ⟨(@C10_other_names_untouched [97] [98] [97] [98] ⟨⟨[97]⟩, ⟨[98]⟩⟩
      ⟨⟨[97]⟩, ⟨[98]⟩⟩ rfl rfl ⟨200, [], [(⟨[120]⟩, ⟨[101]⟩), (⟨[97]⟩, ⟨[99]⟩)]⟩).1,
   (@C10_other_names_untouched [97] [98] [97] [98] ⟨⟨[97]⟩, ⟨[98]⟩⟩
      ⟨⟨[97]⟩, ⟨[98]⟩⟩ rfl rfl ⟨200, [], [(⟨[120]⟩, ⟨[101]⟩), (⟨[97]⟩, ⟨[99]⟩)]⟩).2
     ⟨200, [], [(⟨[120]⟩, ⟨[101]⟩), (⟨[97]⟩, ⟨[99]⟩)]⟩ rfl⟩
